import Mathlib

/-!
Shallow embedding of the peerbeam repository:
- `src/src/lib/MeshPeerManager.ts` (server-relayed mesh client),
- `src/server/index.js` (signaling server / room registry),
- the local-broadcast `PeerManager` (src/unnamed/part_001),
- the popup UI room-join wrapper (src/unnamed/part_000).

The browser connection primitive (RTCPeerConnection / RTCDataChannel) is an
external capability; it is modelled by the `PC` / `Channel` records below,
recording exactly the operations the repository code drives it through:
create-offer / create-answer (the opaque SDP blob is abstracted by `SDesc`),
set-local / set-remote description, and add-candidate (the opaque traversal
descriptor is abstracted by `Candidate`, with the list `applied` recording the
`addIceCandidate` calls in order).  JavaScript `Map`s are modelled by
insertion-ordered association lists with the operations `mget` / `mset` /
`mdel`.  Side effects (socket sends, channel sends, handle closes, UI
callbacks) are returned as explicit effect lists.
-/

/-- Opaque session-description payload: the code only ever produces an offer
via `createOffer` or an answer via `createAnswer` and passes it around. -/
inductive SDesc
  | offer
  | answer
deriving DecidableEq, Repr

/-- Opaque ICE traversal descriptor (`RTCIceCandidateInit`). -/
abbrev Candidate := Nat

/-- `RTCDataChannel.readyState` values the code inspects. -/
inductive ChanState
  | connecting
  | opened
  | closed
deriving DecidableEq, Repr

structure Channel where
  readyState : ChanState
deriving DecidableEq, Repr

/-- `RTCPeerConnection.connectionState` values the code branches on. -/
inductive PCState
  | fresh
  | connecting
  | connected
  | disconnected
  | failed
  | closed
deriving DecidableEq, Repr

/-- Model of one `RTCPeerConnection` as driven by the repository code.
`applied` records the arguments of the `addIceCandidate` calls, in call
order. -/
structure PC where
  localDesc : Option SDesc
  remoteDesc : Option SDesc
  applied : List Candidate
  closed : Bool
deriving DecidableEq, Repr

/-- A freshly constructed `RTCPeerConnection`. -/
def newPC : PC := { localDesc := none, remoteDesc := none, applied := [], closed := false }

/-- Room summary as produced by the server for `get-rooms` and `GET /rooms`. -/
structure RoomInfo where
  id : String
  peerCount : Nat
  peers : List (String × String)
deriving DecidableEq, Repr

/-- The signaling envelopes exchanged in the system (§6 of the spec).
`announce` and `leaveMsg` are the local-broadcast bus signals. -/
inductive Envelope
  | join (roomId peerId peerName : String)
  | roomJoined (roomId : String) (peers : List (String × String))
  | peerJoined (peerId peerName : String)
  | peerLeft (peerId peerName : String)
  | offerMsg (src srcName dst : String) (offer : SDesc)
  | answerMsg (src srcName dst : String) (answer : SDesc)
  | candidateMsg (src dst : String) (candidate : Candidate)
  | getRoomsMsg
  | roomsList (rooms : List RoomInfo)
  | announce (peerId peerName : String)
  | leaveMsg (peerId : String)
deriving DecidableEq, Repr

/-- The `to` field of the three relayed envelope kinds. -/
def Envelope.dstOf : Envelope → Option String
  | .offerMsg _ _ d _ => some d
  | .answerMsg _ _ d _ => some d
  | .candidateMsg _ d _ => some d
  | _ => none

/-- ChatMessage as built by `sendMessage` in both peer managers. -/
structure Message where
  id : String
  sender : String
  senderName : String
  text : String
  timestamp : Nat
deriving DecidableEq, Repr

/-- Roster entry reported by MeshPeerManager. -/
structure PeerInfo where
  id : String
  name : String
  connected : Bool
deriving DecidableEq, Repr

/-! ### Insertion-ordered association maps (JavaScript `Map` semantics) -/

def mget {α : Type} : List (String × α) → String → Option α
  | [], _ => none
  | (k', v) :: rest, k => if k' = k then some v else mget rest k

/-- `Map.set`: overwrite in place when the key is present, else append. -/
def mset {α : Type} : List (String × α) → String → α → List (String × α)
  | [], k, v => [(k, v)]
  | (k', v') :: rest, k, v =>
      if k' = k then (k, v) :: rest else (k', v') :: mset rest k v

/-- `Map.delete`: remove the entry with the given key (a `Map` holds at most
one entry per key; on the association list every entry with the key goes). -/
def mdel {α : Type} : List (String × α) → String → List (String × α)
  | [], _ => []
  | (k', v') :: rest, k =>
      if k' = k then mdel rest k else (k', v') :: mdel rest k

/-! ### MeshPeerManager (src/src/lib/MeshPeerManager.ts) -/

/-- The `PeerConnection` record of MeshPeerManager.ts. -/
structure PeerConn where
  id : String
  name : String
  pc : PC
  channel : Option Channel
  connected : Bool
deriving DecidableEq, Repr

/-- The mutable fields of a `MeshPeerManager` instance that the embedded
operations read or write. -/
structure MeshState where
  peerId : String
  peerName : String
  roomId : String
  wsOpen : Bool
  peers : List (String × PeerConn)
  pendingCandidates : List (String × List Candidate)
deriving DecidableEq, Repr

/-- Observable side effects of the mesh client operations. -/
inductive Eff
  | sendEnv (e : Envelope)
  | chanSend (peerId : String) (m : Message)
  | closeChan (peerId : String)
  | closePC (peerId : String)
  | notify (roster : List PeerInfo)
  | cbRoomJoined (roomId : String) (peers : List (String × String))
  | cbPeerJoin (peerId peerName : String)
  | cbPeerLeave (peerId peerName : String)
  | cbRoomsList (rooms : List RoomInfo)
deriving DecidableEq, Repr

/-- `this.send(message)`: only delivered while the socket is open. -/
def meshSend (st : MeshState) (e : Envelope) : List Eff :=
  if st.wsOpen then [Eff.sendEnv e] else []

/-- The argument of `notifyConnectionChange`'s callback. -/
def rosterOf (st : MeshState) : List PeerInfo :=
  st.peers.map (fun kv => { id := kv.2.id, name := kv.2.name, connected := kv.2.connected })

/-- `createPeerConnection(remotePeerId, remotePeerName, createOffer)`.
Returns the new state, effects, and the created record. -/
def createPeerConnection (st : MeshState) (remotePeerId remotePeerName : String)
    (mkOffer : Bool) : MeshState × List Eff × PeerConn :=
  if mkOffer then
    let p : PeerConn :=
      { id := remotePeerId, name := remotePeerName,
        pc := { newPC with localDesc := some .offer },
        channel := some { readyState := .connecting }, connected := false }
    let st1 := { st with peers := mset st.peers remotePeerId p }
    (st1, meshSend st1 (.offerMsg st.peerId st.peerName remotePeerId .offer), p)
  else
    let p : PeerConn :=
      { id := remotePeerId, name := remotePeerName, pc := newPC,
        channel := none, connected := false }
    ({ st with peers := mset st.peers remotePeerId p }, [], p)

/-- `handleOffer(fromId, fromName, offer)`: get-or-create the record, apply
the offer as remote description, drain the pending candidate queue in order,
produce and set an answer, emit the answer envelope. -/
def handleOffer (st : MeshState) (fromId fromName : String) (offer : SDesc) :
    MeshState × List Eff :=
  let got :=
    match mget st.peers fromId with
    | some p => (st, ([] : List Eff), p)
    | none => createPeerConnection st fromId fromName false
  let st1 := got.1
  let p := got.2.2
  let pending := (mget st1.pendingCandidates fromId).getD []
  let p' := { p with pc := { p.pc with
                             remoteDesc := some offer
                             applied := p.pc.applied ++ pending
                             localDesc := some .answer } }
  let st2 := { st1 with peers := mset st1.peers fromId p',
                        pendingCandidates := mdel st1.pendingCandidates fromId }
  (st2, got.2.1 ++ meshSend st2 (.answerMsg st.peerId st.peerName fromId .answer))

/-- `handleAnswer(fromId, answer)`: no-op without a record; otherwise apply
the answer as remote description and drain the pending candidate queue. -/
def handleAnswer (st : MeshState) (fromId : String) (answer : SDesc) :
    MeshState × List Eff :=
  match mget st.peers fromId with
  | none => (st, [])
  | some p =>
      let pending := (mget st.pendingCandidates fromId).getD []
      let p' := { p with pc := { p.pc with
                                 remoteDesc := some answer
                                 applied := p.pc.applied ++ pending } }
      ({ st with peers := mset st.peers fromId p',
                 pendingCandidates := mdel st.pendingCandidates fromId }, [])

/-- `handleIceCandidate(fromId, candidate)`: apply immediately when a record
with a remote description exists, otherwise append to the pending queue. -/
def handleIceCandidate (st : MeshState) (fromId : String) (cand : Candidate) :
    MeshState :=
  match mget st.peers fromId with
  | some p =>
      if p.pc.remoteDesc.isSome then
        let p' := { p with pc := { p.pc with applied := p.pc.applied ++ [cand] } }
        { st with peers := mset st.peers fromId p' }
      else
        let q := ((mget st.pendingCandidates fromId).getD []) ++ [cand]
        { st with pendingCandidates := mset st.pendingCandidates fromId q }
  | none =>
      let q := ((mget st.pendingCandidates fromId).getD []) ++ [cand]
      { st with pendingCandidates := mset st.pendingCandidates fromId q }

/-- `removePeer(peerId)`: close the handles, delete the record, notify.
The pending-candidate map is not touched by the source. -/
def removePeer (st : MeshState) (pid : String) : MeshState × List Eff :=
  match mget st.peers pid with
  | none => (st, [])
  | some p =>
      let closeEffs :=
        (match p.channel with | some _ => [Eff.closeChan pid] | none => []) ++
          [Eff.closePC pid]
      let st' := { st with peers := mdel st.peers pid }
      (st', closeEffs ++ [Eff.notify (rosterOf st')])

/-- The `pc.onconnectionstatechange` handler of `createPeerConnection`. -/
def connectionStateChange (st : MeshState) (pid : String) (s : PCState) :
    MeshState × List Eff :=
  match mget st.peers pid with
  | none => (st, [])
  | some p =>
      if s = .connected then
        let st' := { st with peers := mset st.peers pid { p with connected := true } }
        (st', [Eff.notify (rosterOf st')])
      else if s = .disconnected ∨ s = .failed ∨ s = .closed then
        let st' := { st with peers := mset st.peers pid { p with connected := false } }
        (st', [Eff.notify (rosterOf st')])
      else
        (st, [])

/-- `handleSignal(signal)` dispatch of MeshPeerManager.ts. -/
def handleSignal (st : MeshState) (sig : Envelope) : MeshState × List Eff :=
  match sig with
  | .roomJoined rid ps =>
      let st0 := { st with roomId := rid }
      ps.foldl
        (fun acc pr =>
          let step := createPeerConnection acc.1 pr.1 pr.2 true
          (step.1, acc.2 ++ step.2.1))
        (st0, [Eff.cbRoomJoined rid ps])
  | .peerJoined pid pname => (st, [Eff.cbPeerJoin pid pname])
  | .peerLeft pid pname =>
      let step := removePeer st pid
      (step.1, step.2 ++ [Eff.cbPeerLeave pid pname])
  | .offerMsg src srcName _ off => handleOffer st src srcName off
  | .answerMsg src _ _ ans => handleAnswer st src ans
  | .candidateMsg src _ c => (handleIceCandidate st src c, [])
  | .roomsList rooms => (st, [Eff.cbRoomsList rooms])
  | _ => (st, [])

/-- `joinRoom(roomId)`: store the id and emit the join envelope verbatim. -/
def joinRoom (st : MeshState) (roomId : String) : MeshState × List Eff :=
  ({ st with roomId := roomId },
   meshSend { st with roomId := roomId } (.join roomId st.peerId st.peerName))

/-- JavaScript `String.prototype.toUpperCase` (`Char.toUpper` per character,
faithful for the ASCII room tokens this system uses). -/
def upperStr (s : String) : String := ⟨s.data.map Char.toUpper⟩

/-- JavaScript `String.prototype.trim`: strip whitespace from both ends. -/
def trimStr (s : String) : String :=
  ⟨((s.data.dropWhile Char.isWhitespace).reverse.dropWhile Char.isWhitespace).reverse⟩

/-- The popup UI wrapper (src/unnamed/part_000): trims and upper-cases the
room id before calling `MeshPeerManager.joinRoom`. -/
def uiJoinRoom (st : MeshState) (room : String) : MeshState × List Eff :=
  if trimStr room = "" then (st, [])
  else joinRoom st (upperStr (trimStr room))

/-- Whether a record's channel is open for sending. -/
def chanIsOpen (p : PeerConn) : Bool :=
  match p.channel with
  | some c => c.readyState = ChanState.opened
  | none => false

/-- `sendMessage(text)`: build the ChatMessage, push the serialized payload to
every record whose channel is open (in map iteration order), return it.
`generateId()` and `Date.now()` are external inputs, passed as parameters. -/
def sendMessage (st : MeshState) (text msgId : String) (now : Nat) :
    Message × List Eff :=
  let message : Message :=
    { id := msgId, sender := st.peerId, senderName := st.peerName,
      text := text, timestamp := now }
  (message,
   st.peers.foldl
     (fun acc kv => if chanIsOpen kv.2 then acc ++ [Eff.chanSend kv.1 message] else acc)
     [])

/-- `disconnect()`: close every record's handles, clear the peer map, close
the socket.  The pending-candidate map is not touched by the source. -/
def disconnect (st : MeshState) : MeshState × List Eff :=
  ({ st with peers := [], wsOpen := false },
   st.peers.foldr
     (fun kv acc =>
       ((match kv.2.channel with | some _ => [Eff.closeChan kv.1] | none => []) ++
        [Eff.closePC kv.1]) ++ acc)
     [])

/-- `getConnectedPeers()`. -/
def getConnectedPeers (st : MeshState) : List PeerInfo :=
  (st.peers.filter (fun kv => kv.2.connected)).map
    (fun kv => { id := kv.2.id, name := kv.2.name, connected := true })

/-! ### Observation helpers -/

def pendingOf (st : MeshState) (pid : String) : List Candidate :=
  (mget st.pendingCandidates pid).getD []

def appliedOf (st : MeshState) (pid : String) : List Candidate :=
  match mget st.peers pid with
  | some p => p.pc.applied
  | none => []

/-- `true` iff there is no record for `pid` whose remote description is set. -/
def remoteUnset (st : MeshState) (pid : String) : Bool :=
  match mget st.peers pid with
  | some p => p.pc.remoteDesc.isNone
  | none => true

/-- Envelopes pushed to the signaling socket, in order. -/
def sentEnvs (effs : List Eff) : List Envelope :=
  effs.foldr (fun e acc => match e with | .sendEnv v => v :: acc | _ => acc) []

/-- Data-channel sends, in order. -/
def chanSends (effs : List Eff) : List (String × Message) :=
  effs.foldr (fun e acc => match e with | .chanSend pid m => (pid, m) :: acc | _ => acc) []

/-! ### Local-broadcast PeerManager (src/unnamed/part_001) -/

/-- The `Peer` record of the local-broadcast PeerManager. -/
structure LPeer where
  id : String
  name : String
  pc : PC
  channel : Option Channel
  connected : Bool
deriving DecidableEq, Repr

structure LocalState where
  peerId : String
  peerName : String
  roomId : String
  peers : List (String × LPeer)
deriving DecidableEq, Repr

/-- Observable side effects of the local-broadcast manager. -/
inductive LEff
  | post (e : Envelope)
  | closeChan (peerId : String)
  | closePC (peerId : String)
  | notify (connected : Bool) (peerCount : Nat)
  | cbPeerJoin (peerId peerName : String)
  | cbPeerLeave (peerId : String)
  | chanSend (peerId : String) (m : Message)
deriving DecidableEq, Repr

/-- `notifyConnectionChange` of the local manager. -/
def lNotify (st : LocalState) : LEff :=
  let n := (st.peers.filter (fun kv => kv.2.connected)).length
  LEff.notify (decide (0 < n)) n

/-- `createConnection(remotePeerId, remotePeerName, createOffer)`. -/
def lCreateConnection (st : LocalState) (remotePeerId remotePeerName : String)
    (mkOffer : Bool) : LocalState × List LEff × LPeer :=
  if mkOffer then
    let p : LPeer :=
      { id := remotePeerId, name := remotePeerName,
        pc := { newPC with localDesc := some .offer },
        channel := some { readyState := .connecting }, connected := false }
    ({ st with peers := mset st.peers remotePeerId p },
     [LEff.post (.offerMsg st.peerId st.peerName remotePeerId .offer)], p)
  else
    let p : LPeer :=
      { id := remotePeerId, name := remotePeerName, pc := newPC,
        channel := none, connected := false }
    ({ st with peers := mset st.peers remotePeerId p }, [], p)

/-- `handleOffer` of the local manager: get-or-create (firing the peer-join
callback on create), apply the offer, answer.  No candidate queue exists. -/
def lHandleOffer (st : LocalState) (fromId fromName : String) (offer : SDesc) :
    LocalState × List LEff :=
  let got :=
    match mget st.peers fromId with
    | some p => (st, ([] : List LEff), p)
    | none =>
        let c := lCreateConnection st fromId fromName false
        (c.1, c.2.1 ++ [LEff.cbPeerJoin fromId fromName], c.2.2)
  let p := got.2.2
  let p' := { p with pc := { p.pc with
                             remoteDesc := some offer
                             localDesc := some .answer } }
  ({ got.1 with peers := mset got.1.peers fromId p' },
   got.2.1 ++ [LEff.post (.answerMsg st.peerId st.peerName fromId .answer)])

/-- `handleAnswer` of the local manager. -/
def lHandleAnswer (st : LocalState) (fromId : String) (answer : SDesc) :
    LocalState × List LEff :=
  match mget st.peers fromId with
  | none => (st, [])
  | some p =>
      let p' := { p with pc := { p.pc with remoteDesc := some answer } }
      ({ st with peers := mset st.peers fromId p' }, [])

/-- `handleIceCandidate` of the local manager: applied immediately when a
record exists, silently dropped otherwise (no buffering in this variant). -/
def lHandleCandidate (st : LocalState) (fromId : String) (cand : Candidate) :
    LocalState :=
  match mget st.peers fromId with
  | none => st
  | some p =>
      let p' := { p with pc := { p.pc with applied := p.pc.applied ++ [cand] } }
      { st with peers := mset st.peers fromId p' }

/-- `removePeer` of the local manager. -/
def lRemovePeer (st : LocalState) (pid : String) : LocalState × List LEff :=
  match mget st.peers pid with
  | none => (st, [])
  | some p =>
      let closeEffs :=
        (match p.channel with | some _ => [LEff.closeChan pid] | none => []) ++
          [LEff.closePC pid]
      let st' := { st with peers := mdel st.peers pid }
      (st', closeEffs ++ [LEff.cbPeerLeave pid, lNotify st'])

/-- The `pc.onconnectionstatechange` handler of the local manager: unlike the
mesh variant, a `failed` transition additionally tears the record down. -/
def lConnectionStateChange (st : LocalState) (pid : String) (s : PCState) :
    LocalState × List LEff :=
  match mget st.peers pid with
  | none => (st, [])
  | some p =>
      if s = .connected then
        let st' := { st with peers := mset st.peers pid { p with connected := true } }
        (st', [lNotify st'])
      else if s = .disconnected ∨ s = .failed ∨ s = .closed then
        let st' := { st with peers := mset st.peers pid { p with connected := false } }
        if s = .failed then
          let step := lRemovePeer st' pid
          (step.1, [lNotify st'] ++ step.2)
        else
          (st', [lNotify st'])
      else
        (st, [])

/-- `handleSignal` of the local-broadcast PeerManager. -/
def lHandleSignal (st : LocalState) (sig : Envelope) : LocalState × List LEff :=
  match sig with
  | .announce pid pname =>
      if pid ≠ st.peerId ∧ mget st.peers pid = none then
        let c := lCreateConnection st pid pname true
        (c.1, c.2.1 ++ [LEff.cbPeerJoin pid pname])
      else (st, [])
  | .offerMsg src srcName dst offer =>
      if dst = st.peerId then lHandleOffer st src srcName offer else (st, [])
  | .answerMsg src _ dst answer =>
      if dst = st.peerId then lHandleAnswer st src answer else (st, [])
  | .candidateMsg src dst c =>
      if dst = st.peerId then (lHandleCandidate st src c, []) else (st, [])
  | .leaveMsg pid =>
      if pid ≠ st.peerId then lRemovePeer st pid else (st, [])
  | _ => (st, [])

/-! ### Signaling server (src/server/index.js) -/

/-- One member object held in a room's `Set`: the socket (identified by
`connId`), the peer id and display name.  `wsOpen` models
`ws.readyState === 1`, which `broadcastToRoom` checks. -/
structure SMember where
  connId : Nat
  peerId : String
  peerName : String
  wsOpen : Bool
deriving DecidableEq, Repr

/-- The server's `rooms` map: roomId → member set (in insertion order). -/
abbrev Rooms := List (String × List SMember)

/-- Per-connection server state: the closure variables `currentRoom` and
`peerInfo` of the `wss.on('connection')` handler. -/
structure ConnCtx where
  currentRoom : Option String
  peerInfo : Option SMember
deriving DecidableEq, Repr

/-- `Set.delete(peerInfo)`: removal by object identity, which the full record
(with its unique `connId`) stands in for. -/
def delMember (ms : List SMember) (m : SMember) : List SMember :=
  ms.filter (fun x => !decide (x = m))

/-- `broadcastToRoom(roomId, message, excludeWs)`. -/
def broadcastToRoom (rooms : Rooms) (roomId : String) (msg : Envelope)
    (excl : Option Nat) : List (Nat × Envelope) :=
  match mget rooms roomId with
  | none => []
  | some ms =>
      (ms.filter (fun m => !decide (excl = some m.connId) && m.wsOpen)).map
        (fun m => (m.connId, msg))

/-- The room summaries served by `GET /rooms` and the `get-rooms` envelope. -/
def roomsListing (rooms : Rooms) : List RoomInfo :=
  rooms.map (fun kv =>
    { id := kv.1, peerCount := kv.2.length,
      peers := kv.2.map (fun m => (m.peerId, m.peerName)) })

/-- The server's `join` case: leave the prior room (without deleting it even
when it becomes empty), enter the target room, reply with the snapshot of
existing members, notify them, then add the joiner. -/
def serverJoin (rooms : Rooms) (ctx : ConnCtx) (connId : Nat)
    (roomId peerId peerName : String) : Rooms × ConnCtx × List (Nat × Envelope) :=
  let left :=
    match ctx.currentRoom, ctx.peerInfo with
    | some r, some pi =>
        match mget rooms r with
        | some ms =>
            let rooms' := mset rooms r (delMember ms pi)
            (rooms',
             broadcastToRoom rooms' r (.peerLeft pi.peerId pi.peerName) (some connId))
        | none => (rooms, [])
    | _, _ => (rooms, [])
  let rooms1 := left.1
  let pi : SMember := { connId := connId, peerId := peerId, peerName := peerName,
                        wsOpen := true }
  let ctx' : ConnCtx := { currentRoom := some roomId, peerInfo := some pi }
  let rooms2 := if mget rooms1 roomId = none then mset rooms1 roomId [] else rooms1
  let existing := (mget rooms2 roomId).getD []
  let reply := [(connId, Envelope.roomJoined roomId
                  (existing.map (fun m => (m.peerId, m.peerName))))]
  let joined := broadcastToRoom rooms2 roomId (.peerJoined peerId peerName) (some connId)
  let rooms3 := mset rooms2 roomId (existing ++ [pi])
  (rooms3, ctx', left.2 ++ reply ++ joined)

/-- The server's relay case for `offer` / `answer` / `ice-candidate`:
forward the parsed message unchanged to the first member of the sender's
current room whose peerId matches the `to` field. -/
def serverRelay (rooms : Rooms) (ctx : ConnCtx) (msg : Envelope) (dst : String) :
    List (Nat × Envelope) :=
  match ctx.currentRoom with
  | none => []
  | some r =>
      match mget rooms r with
      | none => []
      | some ms =>
          match ms.find? (fun m => m.peerId == dst) with
          | some m => [(m.connId, msg)]
          | none => []

/-- The `ws.on('message')` dispatch (the `broadcast` case, unused by the
clients in this repository, is omitted). -/
def serverHandleMessage (rooms : Rooms) (ctx : ConnCtx) (connId : Nat)
    (e : Envelope) : Rooms × ConnCtx × List (Nat × Envelope) :=
  match e with
  | .join rid pid pname => serverJoin rooms ctx connId rid pid pname
  | .offerMsg _ _ dst _ => (rooms, ctx, serverRelay rooms ctx e dst)
  | .answerMsg _ _ dst _ => (rooms, ctx, serverRelay rooms ctx e dst)
  | .candidateMsg _ dst _ => (rooms, ctx, serverRelay rooms ctx e dst)
  | .getRoomsMsg => (rooms, ctx, [(connId, .roomsList (roomsListing rooms))])
  | _ => (rooms, ctx, [])

/-- The `ws.on('close')` handler: remove the member, notify the remaining
members, and delete the room once empty. -/
def serverClose (rooms : Rooms) (ctx : ConnCtx) : Rooms × List (Nat × Envelope) :=
  match ctx.currentRoom, ctx.peerInfo with
  | some r, some pi =>
      match mget rooms r with
      | some ms =>
          let ms' := delMember ms pi
          let rooms1 := mset rooms r ms'
          let outs := broadcastToRoom rooms1 r (.peerLeft pi.peerId pi.peerName) none
          let rooms2 := if ms'.length = 0 then mdel rooms1 r else rooms1
          (rooms2, outs)
      | none => (rooms, [])
  | _, _ => (rooms, [])

/-- JSON scalar values appearing in the REST responses. -/
inductive JVal
  | jstr (s : String)
  | jnum (n : Nat)
deriving DecidableEq, Repr

/-- The HTTP status code of the `/health` handler (`res.writeHead(200, ...)`). -/
def healthStatus : Nat := 200

/-- The JSON body of `GET /health`:
`JSON.stringify({ status: 'ok', rooms: rooms.size })`, as a field list. -/
def healthBody (rooms : Rooms) : List (String × JVal) :=
  [("status", JVal.jstr "ok"), ("rooms", JVal.jnum rooms.length)]

/-- Concrete state for the C1 witness: one peer record without a remote
description and one candidate already queued for it. -/
def w1St : MeshState :=
  { peerId := "me", peerName := "Me", roomId := "R", wsOpen := true,
    peers := [("x", { id := "x", name := "X", pc := newPC,
                      channel := none, connected := false })],
    pendingCandidates := [("x", [3])] }


/-- The record shape that `createPeerConnection(_, _, true)` installs:
data channel created, offer produced and set as local description. -/
def offerRec (pid pname : String) : PeerConn :=
  { id := pid, name := pname, pc := { newPC with localDesc := some .offer },
    channel := some { readyState := .connecting }, connected := false }

/-- The id has a record created in offering mode: channel handle present and
a local offer description set. -/
def offerReady (st : MeshState) (j : String) : Prop :=
  ∃ q, mget st.peers j = some q ∧ q.channel.isSome = true
    ∧ q.pc.localDesc = some SDesc.offer

/-- Concrete state for the C2 witness. -/
def w2St : MeshState :=
  { peerId := "me", peerName := "Me", roomId := "", wsOpen := true,
    peers := [], pendingCandidates := [] }


/-- No room in the server's table has an empty member set. -/
def noEmptyRooms (rooms : Rooms) : Prop := ∀ kv ∈ rooms, kv.2 ≠ ([] : List SMember)

instance (rooms : Rooms) : Decidable (noEmptyRooms rooms) := by
  unfold noEmptyRooms
  infer_instance

/-- Concrete server scenario for C3: one room whose only member's connection
then joins a different room. -/
def c3Mem : SMember := { connId := 1, peerId := "a", peerName := "A", wsOpen := true }

def c3Rooms : Rooms := [("R", [c3Mem])]

def c3Ctx : ConnCtx := { currentRoom := some "R", peerInfo := some c3Mem }


/-- Concrete state for the C4 witness: one open channel, one still
connecting, one record without a channel. -/
def w4St : MeshState :=
  { peerId := "me", peerName := "Me", roomId := "R", wsOpen := true,
    peers :=
      [("a", { id := "a", name := "A", pc := newPC,
               channel := some { readyState := .opened }, connected := true }),
       ("b", { id := "b", name := "B", pc := newPC,
               channel := some { readyState := .connecting }, connected := false }),
       ("c", { id := "c", name := "C", pc := newPC,
               channel := none, connected := false })],
    pendingCandidates := [] }

/-- Well-formedness of the mesh peer map: duplicate-free keys and each
record's id field agreeing with its key (both hold for every map the
code builds, since records are only inserted under their own id). -/
def MeshWF (st : MeshState) : Prop :=
  (st.peers.map Prod.fst).Nodup ∧ ∀ kv ∈ st.peers, kv.2.id = kv.1

instance (st : MeshState) : Decidable (MeshWF st) := by
  unfold MeshWF
  infer_instance

/-- Concrete scenario for C5: a fully negotiated, connected peer record. -/
def c5Peer : PeerConn :=
  { id := "p", name := "P",
    pc := { localDesc := some .offer, remoteDesc := some .answer,
            applied := [], closed := false },
    channel := some { readyState := .opened }, connected := true }

def c5St : MeshState :=
  { peerId := "me", peerName := "Me", roomId := "R", wsOpen := true,
    peers := [("p", c5Peer)], pendingCandidates := [] }

/-- Local-broadcast peer record for the C5 witness. -/
def w5Peer : LPeer :=
  { id := "p", name := "P", pc := newPC,
    channel := some { readyState := .opened }, connected := true }

def w5L : LocalState :=
  { peerId := "me", peerName := "Me", roomId := "R", peers := [("p", w5Peer)] }


/-- Concrete scenario for C6: a peer record with one candidate queued. -/
def c6Peer : PeerConn :=
  { id := "x", name := "X", pc := newPC,
    channel := some { readyState := .opened }, connected := true }

def c6St : MeshState :=
  { peerId := "me", peerName := "Me", roomId := "R", wsOpen := true,
    peers := [("x", c6Peer)], pendingCandidates := [("x", [7])] }

/-- A connection context that has not joined any room yet. -/
def freshCtx : ConnCtx := { currentRoom := none, peerInfo := none }

/-- Rooms table after peer A creates room "ABCD" on an empty server. -/
def c7Rooms1 : Rooms := (serverJoin [] freshCtx 1 "ABCD" "a" "Alice").1


/-- Concrete relay scenario for the C8 witness. -/
def w8Mem : SMember := { connId := 5, peerId := "t", peerName := "T", wsOpen := true }

def w8Rooms : Rooms := [("R", [w8Mem])]

def w8Ctx : ConnCtx := { currentRoom := some "R", peerInfo := some w8Mem }

/-- A nonempty room table for the C9 counterexample. -/
def c9Rooms : Rooms :=
  [("R", [{ connId := 1, peerId := "a", peerName := "A", wsOpen := true }])]

/-- A fresh local-broadcast manager state for C10. -/
def c10St : LocalState :=
  { peerId := "me", peerName := "Me", roomId := "r", peers := [] }

/-! ### Claims -/

/-! #### Association-map lemmas -/

theorem mget_mset_self {α : Type} (m : List (String × α)) (k : String) (v : α) :
    mget (mset m k v) k = some v := by
  induction m with
  | nil => simp [mget, mset]
  | cons kv rest ih =>
      by_cases h : kv.1 = k
      · simp [mset, h, mget]
      · simp [mset, h, mget, ih]

theorem mget_mset_ne {α : Type} (m : List (String × α)) (k k' : String) (v : α)
    (h : k ≠ k') : mget (mset m k v) k' = mget m k' := by
  induction m with
  | nil => simp [mget, mset, h]
  | cons kv rest ih =>
      obtain ⟨k0, v0⟩ := kv
      by_cases hk : k0 = k
      · subst hk
        simp [mset, mget, h]
      · by_cases hk' : k0 = k'
        · subst hk'
          simp [mset, mget, hk]
        · simp [mset, mget, hk, hk', ih]

theorem mget_mdel_self {α : Type} (m : List (String × α)) (k : String) :
    mget (mdel m k) k = none := by
  induction m with
  | nil => simp [mget, mdel]
  | cons kv rest ih =>
      by_cases h : kv.1 = k
      · simp [mdel, h, ih]
      · simp [mdel, h, mget, ih]

theorem mem_mdel {α : Type} {m : List (String × α)} {k : String} {kv : String × α}
    (h : kv ∈ mdel m k) : kv ∈ m ∧ kv.1 ≠ k := by
  induction m with
  | nil => simp [mdel] at h
  | cons hd rest ih =>
      by_cases hk : hd.1 = k
      · simp only [mdel, if_pos hk] at h
        exact ⟨List.mem_cons_of_mem _ (ih h).1, (ih h).2⟩
      · simp only [mdel, if_neg hk, List.mem_cons] at h
        rcases h with h | h
        · subst h; exact ⟨List.mem_cons_self _ _, hk⟩
        · exact ⟨List.mem_cons_of_mem _ (ih h).1, (ih h).2⟩

theorem mem_mset {α : Type} {m : List (String × α)} {k : String} {v : α}
    {kv : String × α} (h : kv ∈ mset m k v) : kv = (k, v) ∨ kv ∈ m := by
  induction m with
  | nil => simp [mset] at h; simp [h]
  | cons hd rest ih =>
      by_cases hk : hd.1 = k
      · simp only [mset, if_pos hk, List.mem_cons] at h
        rcases h with h | h
        · exact Or.inl h
        · exact Or.inr (List.mem_cons_of_mem _ h)
      · simp only [mset, if_neg hk, List.mem_cons] at h
        rcases h with h | h
        · exact Or.inr (by simp [h])
        · rcases ih h with h' | h'
          · exact Or.inl h'
          · exact Or.inr (List.mem_cons_of_mem _ h')

/-- With duplicate-free keys, `mset` replaces exactly the entry at the key:
any surviving entry is the new one or an untouched entry at another key. -/
theorem mem_mset_nodup {α : Type} {m : List (String × α)} {k : String} {v : α}
    {kv : String × α} (hnd : (m.map Prod.fst).Nodup) (h : kv ∈ mset m k v) :
    kv = (k, v) ∨ (kv ∈ m ∧ kv.1 ≠ k) := by
  induction m with
  | nil => simp [mset] at h; simp [h]
  | cons hd rest ih =>
      simp only [List.map_cons, List.nodup_cons] at hnd
      by_cases hk : hd.1 = k
      · simp only [mset, if_pos hk, List.mem_cons] at h
        rcases h with h | h
        · exact Or.inl h
        · refine Or.inr ⟨List.mem_cons_of_mem _ h, ?_⟩
          intro hkv
          exact hnd.1 (by rw [hk, ← hkv]; exact List.mem_map_of_mem Prod.fst h)
      · simp only [mset, if_neg hk, List.mem_cons] at h
        rcases h with h | h
        · subst h; exact Or.inr ⟨List.mem_cons_self _ _, hk⟩
        · rcases ih hnd.2 h with h' | h'
          · exact Or.inl h'
          · exact Or.inr ⟨List.mem_cons_of_mem _ h'.1, h'.2⟩


/-- C1: an ice candidate that arrives for a peer id whose record has no remote
description yet (or no record at all) is appended to that id's pending queue
and not applied; when `handleOffer` or `handleAnswer` later applies a remote
description for that id, the whole queue is appended to the connection's
applied-candidate list in original arrival order — each queued candidate
exactly once — and the queue for the id becomes empty. -/
theorem mesh_candidate_buffering (st : MeshState) (i nm : String) (c : Candidate)
    (offer answer : SDesc) (hq : remoteUnset st i = true) :
    pendingOf (handleIceCandidate st i c) i = pendingOf st i ++ [c]
    ∧ appliedOf (handleIceCandidate st i c) i = appliedOf st i
    ∧ appliedOf (handleOffer st i nm offer).1 i = appliedOf st i ++ pendingOf st i
    ∧ pendingOf (handleOffer st i nm offer).1 i = []
    ∧ (∀ p, mget st.peers i = some p →
        appliedOf (handleAnswer st i answer).1 i = appliedOf st i ++ pendingOf st i
        ∧ pendingOf (handleAnswer st i answer).1 i = []) := by
  cases hp : mget st.peers i with
  | none =>
      refine ⟨?_, ?_, ?_, ?_, ?_⟩
      · simp [handleIceCandidate, hp, pendingOf, mget_mset_self]
      · simp [handleIceCandidate, hp, appliedOf]
      · simp [handleOffer, hp, createPeerConnection, appliedOf, pendingOf,
              mget_mset_self, newPC]
      · simp [handleOffer, hp, createPeerConnection, pendingOf, mget_mdel_self]
      · intro p hp'
        exact absurd hp' (by simp)
  | some p =>
      have hrd : p.pc.remoteDesc = none := by
        have := hq
        simp only [remoteUnset, hp, Option.isNone_iff_eq_none] at this
        exact this
      refine ⟨?_, ?_, ?_, ?_, ?_⟩
      · simp [handleIceCandidate, hp, hrd, pendingOf, mget_mset_self]
      · simp [handleIceCandidate, hp, hrd, appliedOf]
      · simp [handleOffer, hp, appliedOf, pendingOf, mget_mset_self]
      · simp [handleOffer, hp, pendingOf, mget_mdel_self]
      · intro q hq'
        obtain rfl : p = q := by injection hq'
        constructor
        · simp [handleAnswer, hp, appliedOf, pendingOf, mget_mset_self]
        · simp [handleAnswer, hp, pendingOf, mget_mdel_self]

theorem mesh_candidate_buffering_witness :
    remoteUnset w1St "x" = true
    ∧ pendingOf (handleIceCandidate w1St "x" 5) "x" = pendingOf w1St "x" ++ [5]
    ∧ appliedOf (handleOffer w1St "x" "X" SDesc.offer).1 "x"
        = appliedOf w1St "x" ++ pendingOf w1St "x" :=
  ⟨by decide,
   (mesh_candidate_buffering w1St "x" "X" 5 SDesc.offer SDesc.answer (by decide)).1,
   (mesh_candidate_buffering w1St "x" "X" 5 SDesc.offer SDesc.answer (by decide)).2.2.1⟩

theorem sentEnvs_append (a b : List Eff) :
    sentEnvs (a ++ b) = sentEnvs a ++ sentEnvs b := by
  induction a with
  | nil => rfl
  | cons e rest ih => cases e <;> simp [sentEnvs, List.foldr] at ih ⊢ <;> exact ih

theorem sentEnvs_map_send (xs : List Envelope) :
    sentEnvs (xs.map Eff.sendEnv) = xs := by
  induction xs with
  | nil => rfl
  | cons e rest ih => simp [sentEnvs, List.foldr] at ih ⊢; exact ih

theorem createPeerConnection_offer (st : MeshState) (pid pname : String) :
    createPeerConnection st pid pname true
      = ({ st with peers := mset st.peers pid (offerRec pid pname) },
         meshSend st (.offerMsg st.peerId st.peerName pid .offer),
         offerRec pid pname) := by
  simp [createPeerConnection, offerRec, meshSend]

/-- Processing the member list of a `room-joined` signal: the fold emits one
offer envelope per listed member, in list order, and leaves every listed
member with an offering-mode record. -/
theorem roomJoined_fold (ps : List (String × String)) (st : MeshState)
    (effs : List Eff) (hws : st.wsOpen = true) :
    (ps.foldl (fun acc pr =>
        let step := createPeerConnection acc.1 pr.1 pr.2 true
        (step.1, acc.2 ++ step.2.1)) (st, effs)).2
      = effs ++ (ps.map (fun pr =>
          Envelope.offerMsg st.peerId st.peerName pr.1 SDesc.offer)).map Eff.sendEnv
    ∧ (∀ pr ∈ ps, offerReady
        (ps.foldl (fun acc pr =>
          let step := createPeerConnection acc.1 pr.1 pr.2 true
          (step.1, acc.2 ++ step.2.1)) (st, effs)).1 pr.1)
    ∧ (∀ j, offerReady st j → offerReady
        (ps.foldl (fun acc pr =>
          let step := createPeerConnection acc.1 pr.1 pr.2 true
          (step.1, acc.2 ++ step.2.1)) (st, effs)).1 j) := by
  induction ps generalizing st effs with
  | nil => exact ⟨by simp, by simp, fun j h => h⟩
  | cons pr rest ih =>
      have hstep : createPeerConnection st pr.1 pr.2 true
          = ({ st with peers := mset st.peers pr.1 (offerRec pr.1 pr.2) },
             meshSend st (.offerMsg st.peerId st.peerName pr.1 .offer),
             offerRec pr.1 pr.2) := createPeerConnection_offer st pr.1 pr.2
      set st' : MeshState := { st with peers := mset st.peers pr.1 (offerRec pr.1 pr.2) }
      have hws' : st'.wsOpen = true := hws
      have hids : st'.peerId = st.peerId ∧ st'.peerName = st.peerName := ⟨rfl, rfl⟩
      have hsend : meshSend st (.offerMsg st.peerId st.peerName pr.1 .offer)
          = [Eff.sendEnv (.offerMsg st.peerId st.peerName pr.1 .offer)] := by
        simp [meshSend, hws]
      have hpres : ∀ j, offerReady st j → offerReady st' j := by
        intro j hj
        by_cases hjk : j = pr.1
        · subst hjk
          exact ⟨offerRec pr.1 pr.2, by simp [st', mget_mset_self, offerRec]⟩
        · obtain ⟨q, hq1, hq2, hq3⟩ := hj
          exact ⟨q, by
            simpa [st', mget_mset_ne st.peers pr.1 j (offerRec pr.1 pr.2)
              (fun he => hjk he.symm)] using hq1, hq2, hq3⟩
      have hcur : offerReady st' pr.1 :=
        ⟨offerRec pr.1 pr.2, by simp [st', mget_mset_self, offerRec]⟩
      obtain ⟨ih1, ih2, ih3⟩ := ih st'
        (effs ++ [Eff.sendEnv (.offerMsg st.peerId st.peerName pr.1 .offer)]) hws'
      refine ⟨?_, ?_, ?_⟩
      · simp only [List.foldl_cons, hstep, hsend]
        rw [ih1]
        simp
      · intro q hq
        rcases List.mem_cons.mp hq with h | h
        · subst h
          simp only [List.foldl_cons, hstep, hsend]
          exact ih3 q.1 hcur
        · simp only [List.foldl_cons, hstep, hsend]
          exact ih2 q h
      · intro j hj
        simp only [List.foldl_cons, hstep, hsend]
        exact ih3 j (hpres j hj)

/-- C2: on `room-joined`, the mesh coordinator creates an offering-mode
connection (channel created, offer produced and set as local description)
toward every listed pre-existing member, emitting exactly one offer envelope
addressed to each, in list order; on `peer-joined` it changes nothing and
emits nothing, waiting for the newcomer's offer — so for each pair only the
newcomer offers. -/
theorem mesh_newcomer_offer_polarity (st : MeshState) (rid pid pname : String)
    (ps : List (String × String)) (hws : st.wsOpen = true) :
    sentEnvs (handleSignal st (.roomJoined rid ps)).2
      = ps.map (fun pr => Envelope.offerMsg st.peerId st.peerName pr.1 SDesc.offer)
    ∧ (∀ pr ∈ ps, offerReady (handleSignal st (.roomJoined rid ps)).1 pr.1)
    ∧ (handleSignal st (.peerJoined pid pname)).1 = st
    ∧ sentEnvs (handleSignal st (.peerJoined pid pname)).2 = [] := by
  have h := roomJoined_fold ps { st with roomId := rid }
    [Eff.cbRoomJoined rid ps] (by simp [hws])
  have hred : handleSignal st (.roomJoined rid ps)
      = ps.foldl (fun acc pr =>
          let step := createPeerConnection acc.1 pr.1 pr.2 true
          (step.1, acc.2 ++ step.2.1))
          ({ st with roomId := rid }, [Eff.cbRoomJoined rid ps]) := rfl
  refine ⟨?_, ?_, rfl, rfl⟩
  · rw [hred, h.1, sentEnvs_append, sentEnvs_map_send]
    simp [sentEnvs, List.foldr]
  · intro pr hpr
    exact h.2.1 pr hpr

theorem mesh_newcomer_offer_polarity_witness :
    w2St.wsOpen = true
    ∧ sentEnvs (handleSignal w2St (.roomJoined "R" [("a", "A"), ("b", "B")])).2
        = [Envelope.offerMsg "me" "Me" "a" SDesc.offer,
           Envelope.offerMsg "me" "Me" "b" SDesc.offer] :=
  ⟨rfl,
   ((mesh_newcomer_offer_polarity w2St "R" "x" "X" [("a", "A"), ("b", "B")] rfl).1).trans
     (by decide)⟩

/-- C3 counterexample: a `join` that moves a connection out of its prior room
leaves that room in the table with an empty member set, and the subsequent
rooms listing still includes it (with peerCount 0) — the join path never
deletes an emptied room. -/
theorem server_join_leaves_empty_room :
    mget (serverJoin c3Rooms c3Ctx 1 "S" "a" "A").1 "R" = some []
    ∧ { id := "R", peerCount := 0, peers := [] }
        ∈ roomsListing (serverJoin c3Rooms c3Ctx 1 "S" "a" "A").1 := by
  constructor
  · decide
  · decide

/-- C3 amended: only the socket-closure handler deletes emptied rooms: if no
room is empty before a `close`, none is after it (the join path, by the
counterexample, can leave an empty prior room behind). -/
theorem server_close_no_empty_rooms (rooms : Rooms) (ctx : ConnCtx)
    (h : noEmptyRooms rooms) : noEmptyRooms (serverClose rooms ctx).1 := by
  rcases hcr : ctx.currentRoom with _ | r
  · simpa [serverClose, hcr] using h
  rcases hpi : ctx.peerInfo with _ | pi
  · simpa [serverClose, hcr, hpi] using h
  rcases hm : mget rooms r with _ | ms
  · simpa [serverClose, hcr, hpi, hm] using h
  intro kv hkv
  simp only [serverClose, hcr, hpi, hm] at hkv
  by_cases hlen : (delMember ms pi).length = 0
  · rw [if_pos hlen] at hkv
    obtain ⟨hin, hne⟩ := mem_mdel hkv
    rcases mem_mset hin with he | hin'
    · exact absurd (by rw [he]) hne
    · exact h kv hin'
  · rw [if_neg hlen] at hkv
    rcases mem_mset hkv with he | hin'
    · rw [he]
      intro hnil
      simp only at hnil
      exact hlen (by simp [hnil])
    · exact h kv hin'

theorem server_close_no_empty_rooms_witness :
    noEmptyRooms c3Rooms ∧ noEmptyRooms (serverClose c3Rooms c3Ctx).1 :=
  ⟨by decide, server_close_no_empty_rooms c3Rooms c3Ctx (by decide)⟩

theorem foldl_sends (l : List (String × PeerConn)) (m : Message) (acc : List Eff) :
    l.foldl (fun acc kv => if chanIsOpen kv.2 then acc ++ [Eff.chanSend kv.1 m] else acc) acc
      = acc ++ (l.filter (fun kv => chanIsOpen kv.2)).map (fun kv => Eff.chanSend kv.1 m) := by
  induction l generalizing acc with
  | nil => simp
  | cons kv rest ih =>
      by_cases h : chanIsOpen kv.2
      · simp [h, ih]
      · simp [h, ih]

theorem chanSends_map (l : List (String × PeerConn)) (m : Message) :
    chanSends (l.map (fun kv => Eff.chanSend kv.1 m)) = l.map (fun kv => (kv.1, m)) := by
  induction l with
  | nil => rfl
  | cons kv rest ih => simp [chanSends, List.foldr] at ih ⊢; exact ih

/-- C4: `sendMessage` performs exactly one channel send per record whose
channel is open — none to null or non-open channels, each target at most once
— and returns exactly one ChatMessage carrying the caller's peer id, display
name, the given text and the timestamp, regardless of how many channels are
open (including zero). -/
theorem mesh_send_fanout (st : MeshState) (text mid : String) (now : Nat)
    (hkeys : (st.peers.map Prod.fst).Nodup) :
    chanSends (sendMessage st text mid now).2
      = (st.peers.filter (fun kv => chanIsOpen kv.2)).map
          (fun kv => (kv.1, (sendMessage st text mid now).1))
    ∧ (chanSends (sendMessage st text mid now).2).length
        = (st.peers.filter (fun kv => chanIsOpen kv.2)).length
    ∧ ((chanSends (sendMessage st text mid now).2).map Prod.fst).Nodup
    ∧ (sendMessage st text mid now).1
        = { id := mid, sender := st.peerId, senderName := st.peerName,
            text := text, timestamp := now } := by
  have heffs : (sendMessage st text mid now).2
      = (st.peers.filter (fun kv => chanIsOpen kv.2)).map
          (fun kv => Eff.chanSend kv.1 (sendMessage st text mid now).1) := by
    show (st.peers.foldl _ []) = _
    rw [foldl_sends]
    simp only [List.nil_append]
    rfl
  have hsends : chanSends (sendMessage st text mid now).2
      = (st.peers.filter (fun kv => chanIsOpen kv.2)).map
          (fun kv => (kv.1, (sendMessage st text mid now).1)) := by
    rw [heffs, chanSends_map]
  refine ⟨hsends, ?_, ?_, rfl⟩
  · rw [hsends]
    simp
  · rw [hsends]
    have hsub : ((st.peers.filter (fun kv => chanIsOpen kv.2)).map Prod.fst).Sublist
        (st.peers.map Prod.fst) :=
      (List.filter_sublist st.peers).map Prod.fst
    have : ((st.peers.filter (fun kv => chanIsOpen kv.2)).map
        (fun kv => (kv.1, (sendMessage st text mid now).1))).map Prod.fst
        = (st.peers.filter (fun kv => chanIsOpen kv.2)).map Prod.fst := by
      simp [Function.comp]
    rw [this]
    exact hkeys.sublist hsub

theorem mesh_send_fanout_witness :
    (w4St.peers.map Prod.fst).Nodup
    ∧ (chanSends (sendMessage w4St "hi" "m1" 42).2).length
        = (w4St.peers.filter (fun kv => chanIsOpen kv.2)).length :=
  ⟨by decide, (mesh_send_fanout w4St "hi" "m1" 42 (by decide)).2.1⟩

/-- C5 counterexample: in MeshPeerManager a connection reaching `failed` is
NOT torn down — the record (with its unclosed handles) remains in the peer
map; only its connected flag is cleared. -/
theorem mesh_failed_keeps_record :
    mget (connectionStateChange c5St "p" PCState.failed).1.peers "p"
      = some { c5Peer with connected := false } := by
  decide

/-- C5 amended: when a connection reaches `failed`, MeshPeerManager clears
the record's connected flag — the peer no longer appears in getConnectedPeers
and the connection-change callback reports it as not connected — but the
record is not removed and its handles are not closed, and no envelope (hence
no renegotiation) is emitted; the local-broadcast PeerManager additionally
tears down: it removes the record and closes its connection handle. -/
theorem mesh_failed_roster_removal (st : MeshState) (ls : LocalState)
    (pid : String) (p : PeerConn) (q : LPeer)
    (hp : mget st.peers pid = some p) (hw : MeshWF st)
    (hq : mget ls.peers pid = some q) :
    mget (connectionStateChange st pid PCState.failed).1.peers pid
      = some { p with connected := false }
    ∧ (∀ r ∈ getConnectedPeers (connectionStateChange st pid PCState.failed).1,
        r.id ≠ pid)
    ∧ sentEnvs (connectionStateChange st pid PCState.failed).2 = []
    ∧ mget (lConnectionStateChange ls pid PCState.failed).1.peers pid = none
    ∧ LEff.closePC pid ∈ (lConnectionStateChange ls pid PCState.failed).2 := by
  have hred : connectionStateChange st pid PCState.failed
      = ({ st with peers := mset st.peers pid { p with connected := false } },
         [Eff.notify (rosterOf { st with
            peers := mset st.peers pid { p with connected := false } })]) := by
    simp [connectionStateChange, hp]
  refine ⟨?_, ?_, ?_, ?_, ?_⟩
  · rw [hred]
    exact mget_mset_self st.peers pid { p with connected := false }
  · intro r hr
    rw [hred] at hr
    simp only [getConnectedPeers, List.mem_map, List.mem_filter] at hr
    obtain ⟨kv, ⟨hkv, hconn⟩, hrid⟩ := hr
    rcases mem_mset_nodup hw.1 hkv with he | ⟨hin, hne⟩
    · rw [he] at hconn
      simp at hconn
    · intro hid
      apply hne
      rw [← hrid] at hid
      simp only at hid
      rw [← hw.2 kv hin, hid]
  · rw [hred]
    rfl
  · have hred2 : (lConnectionStateChange ls pid PCState.failed).1
        = (lRemovePeer { ls with
            peers := mset ls.peers pid { q with connected := false } } pid).1 := by
      simp [lConnectionStateChange, hq]
    rw [hred2]
    have hq2 : mget (mset ls.peers pid { q with connected := false }) pid
        = some { q with connected := false } := mget_mset_self _ _ _
    simp [lRemovePeer, hq2, mget_mdel_self]
  · have hq2 : mget (mset ls.peers pid { q with connected := false }) pid
        = some { q with connected := false } := mget_mset_self _ _ _
    simp [lConnectionStateChange, hq, lRemovePeer, hq2]

theorem mesh_failed_roster_removal_witness :
    mget c5St.peers "p" = some c5Peer ∧ MeshWF c5St
    ∧ mget w5L.peers "p" = some w5Peer
    ∧ mget (connectionStateChange c5St "p" PCState.failed).1.peers "p"
        = some { c5Peer with connected := false }
    ∧ mget (lConnectionStateChange w5L "p" PCState.failed).1.peers "p" = none :=
  ⟨by decide, by decide, by decide,
   (mesh_failed_roster_removal c5St w5L "p" c5Peer w5Peer
      (by decide) (by decide) (by decide)).1,
   (mesh_failed_roster_removal c5St w5L "p" c5Peer w5Peer
      (by decide) (by decide) (by decide)).2.2.2.1⟩

/-- C6 counterexample: `removePeer` does not clear the removed peer's pending
candidate queue — the queued candidate survives the teardown and a later
`handleOffer` from the same id drains and applies the stale candidate. -/
theorem mesh_remove_keeps_pending :
    pendingOf (removePeer c6St "x").1 "x" = [7]
    ∧ appliedOf (handleOffer (removePeer c6St "x").1 "x" "X" SDesc.offer).1 "x"
        = [7] := by
  constructor
  · decide
  · decide

theorem disconnect_closes (l : List (String × PeerConn)) (kv : String × PeerConn)
    (h : kv ∈ l) :
    Eff.closePC kv.1 ∈ l.foldr
      (fun kv acc =>
        ((match kv.2.channel with
          | some _ => [Eff.closeChan kv.1]
          | none => []) ++ [Eff.closePC kv.1]) ++ acc) [] := by
  induction l with
  | nil => cases h
  | cons hd rest ih =>
      rcases List.mem_cons.mp h with he | hm
      · subst he
        cases kv.2.channel <;> simp
      · simp only [List.foldr_cons, List.mem_append]
        exact Or.inr (ih hm)

/-- C6 amended: tearing down a record (`removePeer`, and `disconnect` for
every record) closes its channel and connection handles and removes it from
the peer map, but neither operation clears the pending candidate queue; by
the counterexample a queued candidate for a removed id survives and is
drained by a later negotiation with the same id. -/
theorem mesh_teardown_no_queue_clear (st : MeshState) (pid : String)
    (p : PeerConn) (hp : mget st.peers pid = some p) :
    mget (removePeer st pid).1.peers pid = none
    ∧ Eff.closePC pid ∈ (removePeer st pid).2
    ∧ (p.channel.isSome = true → Eff.closeChan pid ∈ (removePeer st pid).2)
    ∧ (removePeer st pid).1.pendingCandidates = st.pendingCandidates
    ∧ (disconnect st).1.peers = []
    ∧ (disconnect st).1.pendingCandidates = st.pendingCandidates
    ∧ (∀ kv ∈ st.peers, Eff.closePC kv.1 ∈ (disconnect st).2) := by
  refine ⟨?_, ?_, ?_, ?_, rfl, rfl, ?_⟩
  · simp [removePeer, hp, mget_mdel_self]
  · cases hc : p.channel <;> simp [removePeer, hp, hc]
  · intro hs
    cases hc : p.channel with
    | none => rw [hc] at hs; cases hs
    | some c => simp [removePeer, hp, hc]
  · simp [removePeer, hp]
  · intro kv hkv
    exact disconnect_closes st.peers kv hkv

theorem mesh_teardown_no_queue_clear_witness :
    mget c6St.peers "x" = some c6Peer
    ∧ (removePeer c6St "x").1.pendingCandidates = c6St.pendingCandidates :=
  ⟨by decide, (mesh_teardown_no_queue_clear c6St "x" c6Peer (by decide)).2.2.2.1⟩

/-- C7 counterexample: room ids are compared verbatim by the server — after A
joins "ABCD" on an empty server, B's join of "abcd" creates a second,
distinct room: B's room-joined reply lists nobody (not A) and the table now
holds two rooms. -/
theorem server_rooms_case_sensitive :
    (serverJoin c7Rooms1 freshCtx 2 "abcd" "b" "Bob").2.2
      = [(2, Envelope.roomJoined "abcd" [])]
    ∧ (serverJoin c7Rooms1 freshCtx 2 "abcd" "b" "Bob").1.length = 2 := by
  constructor
  · decide
  · decide

theorem serverJoin_fresh_room (rooms : Rooms) (cid : Nat) (k pid pname : String)
    (hfresh : mget rooms k = none) :
    (serverJoin rooms freshCtx cid k pid pname).1
        = mset (mset rooms k []) k
            [{ connId := cid, peerId := pid, peerName := pname, wsOpen := true }]
    ∧ (serverJoin rooms freshCtx cid k pid pname).2.2
        = [(cid, Envelope.roomJoined k [])] := by
  constructor
  · simp [serverJoin, freshCtx, hfresh, mget_mset_self]
  · simp [serverJoin, freshCtx, hfresh, mget_mset_self, broadcastToRoom]

theorem serverJoin_existing_room (rooms : Rooms) (cid : Nat) (k pid pname : String)
    (ms : List SMember) (hms : mget rooms k = some ms) :
    (serverJoin rooms freshCtx cid k pid pname).1
        = mset rooms k
            (ms ++ [{ connId := cid, peerId := pid, peerName := pname, wsOpen := true }])
    ∧ (cid, Envelope.roomJoined k (ms.map (fun m => (m.peerId, m.peerName))))
        ∈ (serverJoin rooms freshCtx cid k pid pname).2.2 := by
  constructor
  · simp [serverJoin, freshCtx, hms]
  · simp [serverJoin, freshCtx, hms]

/-- C7 amended: MeshPeerManager.joinRoom and the server compare room ids
verbatim (case-sensitively, per the counterexample); the upper-casing lives
in the popup UI, which trims and upper-cases the id before calling joinRoom.
Two joins routed through the UI whose raw ids differ only in letter case
therefore reach the server under the same key: they land in the same room
and the second joiner's room-joined reply lists the first peer. -/
theorem ui_join_case_insensitive (st : MeshState) (rooms : Rooms)
    (r1 r2 : String) (a b : Nat) (pa pb na nb : String)
    (hcase : upperStr (trimStr r1) = upperStr (trimStr r2))
    (hne : ¬ trimStr r1 = "") (hws : st.wsOpen = true)
    (hfresh : mget rooms (upperStr (trimStr r1)) = none) :
    sentEnvs (uiJoinRoom st r1).2
      = [Envelope.join (upperStr (trimStr r1)) st.peerId st.peerName]
    ∧ (b, Envelope.roomJoined (upperStr (trimStr r1)) [(pa, na)])
        ∈ (serverJoin (serverJoin rooms freshCtx a (upperStr (trimStr r1)) pa na).1
             freshCtx b (upperStr (trimStr r2)) pb nb).2.2
    ∧ mget (serverJoin (serverJoin rooms freshCtx a (upperStr (trimStr r1)) pa na).1
             freshCtx b (upperStr (trimStr r2)) pb nb).1 (upperStr (trimStr r1))
        = some [{ connId := a, peerId := pa, peerName := na, wsOpen := true },
                { connId := b, peerId := pb, peerName := nb, wsOpen := true }] := by
  obtain ⟨h11, _⟩ := serverJoin_fresh_room rooms a (upperStr (trimStr r1)) pa na hfresh
  have hms : mget (serverJoin rooms freshCtx a (upperStr (trimStr r1)) pa na).1
      (upperStr (trimStr r1))
      = some [{ connId := a, peerId := pa, peerName := na, wsOpen := true }] := by
    rw [h11]
    exact mget_mset_self _ _ _
  obtain ⟨h21, h22⟩ := serverJoin_existing_room _ b (upperStr (trimStr r1)) pb nb _ hms
  refine ⟨?_, ?_, ?_⟩
  · simp [uiJoinRoom, hne, joinRoom, meshSend, hws, sentEnvs, List.foldr]
  · rw [← hcase]
    simpa using h22
  · rw [← hcase, h21]
    exact mget_mset_self _ _ _

theorem ui_join_case_insensitive_witness :
    upperStr (trimStr "ABCD") = upperStr (trimStr "abcd")
    ∧ mget (serverJoin (serverJoin [] freshCtx 1 (upperStr (trimStr "ABCD")) "a" "Alice").1
             freshCtx 2 (upperStr (trimStr "abcd")) "b" "Bob").1
           (upperStr (trimStr "ABCD"))
        = some [{ connId := 1, peerId := "a", peerName := "Alice", wsOpen := true },
                { connId := 2, peerId := "b", peerName := "Bob", wsOpen := true }] :=
  ⟨by decide,
   (ui_join_case_insensitive w2St [] "ABCD" "abcd" 1 2 "a" "b" "Alice" "Bob"
      (by decide) (by decide) rfl (by decide)).2.2⟩

theorem serverRelay_spec (rooms : Rooms) (ctx : ConnCtx) (msg : Envelope)
    (d : String) :
    (serverRelay rooms ctx msg d).length ≤ 1
    ∧ (∀ pr ∈ serverRelay rooms ctx msg d,
        pr.2 = msg ∧ ∃ r ms m, ctx.currentRoom = some r ∧ mget rooms r = some ms
          ∧ m ∈ ms ∧ m.connId = pr.1 ∧ m.peerId = d)
    ∧ ((∀ r ms, ctx.currentRoom = some r → mget rooms r = some ms →
          ∀ m ∈ ms, m.peerId ≠ d) → serverRelay rooms ctx msg d = []) := by
  rcases hcr : ctx.currentRoom with _ | r
  · simp [serverRelay, hcr]
  rcases hm : mget rooms r with _ | ms
  · simp [serverRelay, hcr, hm]
  rcases hf : ms.find? (fun m => m.peerId == d) with _ | m
  · simp [serverRelay, hcr, hm, hf]
  · have hmem : m ∈ ms := List.mem_of_find?_eq_some hf
    have hpid : m.peerId = d := by
      have := List.find?_some hf
      simpa using this
    refine ⟨?_, ?_, ?_⟩
    · simp [serverRelay, hcr, hm, hf]
    · intro pr hpr
      simp only [serverRelay, hcr, hm, hf, List.mem_singleton] at hpr
      subst hpr
      exact ⟨rfl, r, ms, m, rfl, hm, hmem, rfl, hpid⟩
    · intro hno
      exact absurd hpid (hno r ms rfl hm m hmem)

/-- C8: an offer / answer / ice-candidate envelope is forwarded verbatim to
at most one recipient — a member of the sender's current room whose peerId
equals the envelope's `to` field — and to nobody when no such member exists
(so no socket outside the sender's current room ever receives it); the room
table and connection context are unchanged. -/
theorem server_relay_scoped (rooms : Rooms) (ctx : ConnCtx) (cid : Nat)
    (e : Envelope) (d : String) (hd : e.dstOf = some d) :
    (serverHandleMessage rooms ctx cid e).2.2.length ≤ 1
    ∧ (∀ pr ∈ (serverHandleMessage rooms ctx cid e).2.2,
        pr.2 = e ∧ ∃ r ms m, ctx.currentRoom = some r ∧ mget rooms r = some ms
          ∧ m ∈ ms ∧ m.connId = pr.1 ∧ m.peerId = d)
    ∧ ((∀ r ms, ctx.currentRoom = some r → mget rooms r = some ms →
          ∀ m ∈ ms, m.peerId ≠ d) → (serverHandleMessage rooms ctx cid e).2.2 = [])
    ∧ (serverHandleMessage rooms ctx cid e).1 = rooms
    ∧ (serverHandleMessage rooms ctx cid e).2.1 = ctx := by
  cases e <;> simp only [Envelope.dstOf, Option.some.injEq, reduceCtorEq] at hd <;>
    [skip; skip; skip] <;> subst hd <;>
    exact ⟨(serverRelay_spec rooms ctx _ _).1, (serverRelay_spec rooms ctx _ _).2.1,
      (serverRelay_spec rooms ctx _ _).2.2, rfl, rfl⟩

theorem server_relay_scoped_witness :
    (Envelope.offerMsg "s" "S" "t" SDesc.offer).dstOf = some "t"
    ∧ (serverHandleMessage w8Rooms w8Ctx 5
         (.offerMsg "s" "S" "t" SDesc.offer)).2.2.length ≤ 1 :=
  ⟨rfl, (server_relay_scoped w8Rooms w8Ctx 5 (.offerMsg "s" "S" "t" SDesc.offer)
          "t" rfl).1⟩

/-- C9 counterexample: the `/health` JSON body carries the room count under
the key `rooms` — there is no `roomCount` field. -/
theorem health_no_roomCount_field :
    mget (healthBody c9Rooms) "roomCount" = none
    ∧ mget (healthBody c9Rooms) "rooms" = some (JVal.jnum 1) := by
  constructor
  · decide
  · decide

/-- C9 amended: `GET /health` answers HTTP 200 with a JSON body whose
`status` field is "ok" and whose `rooms` field (not `roomCount`) equals the
current number of rooms in the registry. -/
theorem health_endpoint (rooms : Rooms) :
    healthStatus = 200
    ∧ mget (healthBody rooms) "status" = some (JVal.jstr "ok")
    ∧ mget (healthBody rooms) "rooms" = some (JVal.jnum rooms.length) := by
  refine ⟨rfl, ?_, ?_⟩ <;> simp [healthBody, mget]

/-- C10 counterexample: an offer received on the bus whose `to` and `from`
fields both equal the local peer id drives handleOffer into creating a peer
record keyed by the manager's own id — so the invariant does not hold for
every received signal. -/
theorem local_self_offer_creates_record :
    (mget (lHandleSignal c10St
        (.offerMsg "me" "Me" "me" SDesc.offer)).1.peers "me").isSome = true := by
  decide

/-- C10 amended: the local-broadcast manager ignores an announce or leave
carrying its own peer id, and an offer, answer, or ice-candidate whose `to`
field names a different peer leaves the state untouched with no effects;
however (per the counterexample) an offer addressed to this peer whose
`from` field equals the local id does create a self-keyed record, so the
invariant holds only for signals not forged under the local id. -/
theorem local_ignores_foreign_and_self (st : LocalState)
    (pid pname src srcName dst : String) (c : Candidate)
    (offer answer : SDesc) :
    (pid = st.peerId → lHandleSignal st (.announce pid pname) = (st, []))
    ∧ (pid = st.peerId → lHandleSignal st (.leaveMsg pid) = (st, []))
    ∧ (dst ≠ st.peerId →
        lHandleSignal st (.offerMsg src srcName dst offer) = (st, [])
        ∧ lHandleSignal st (.answerMsg src srcName dst answer) = (st, [])
        ∧ lHandleSignal st (.candidateMsg src dst c) = (st, [])) := by
  refine ⟨?_, ?_, ?_⟩
  · intro h
    simp [lHandleSignal, h]
  · intro h
    simp [lHandleSignal, h]
  · intro h
    exact ⟨by simp [lHandleSignal, h], by simp [lHandleSignal, h],
           by simp [lHandleSignal, h]⟩

theorem local_ignores_foreign_and_self_witness :
    ("me" : String) = c10St.peerId
    ∧ lHandleSignal c10St (.announce "me" "Me") = (c10St, []) :=
  ⟨rfl,
   (local_ignores_foreign_and_self c10St "me" "Me" "s" "S" "d" 0
      SDesc.offer SDesc.answer).1 rfl⟩
